import Mathlib

/-!
Shallow embedding of the winit keyboard core:
* `src/platform_impl/linux/x11/util/modifiers.rs` — modifier keymap parsing and
  the modifier state tracker,
* `src/platform_impl/windows/keyboard_layout.rs` — the Windows modifier bitset,
  the layout builder (`prepare_layout`) and the layout cache.

Rust `HashMap`s are modelled as association lists whose `insert` conses a new
entry in front and whose lookup returns the first match, which reproduces the
overwrite semantics of `HashMap::insert` observed through `HashMap::get`.
Machine bytes are modelled as `Nat` with explicit masking; the 256-byte
keyboard-state array is modelled as a function `Nat → Nat`.
OS calls (`MapVirtualKeyExW`, `ToUnicodeEx`, `GetKeyboardLayout`, …) and the
two helpers living in `platform_impl/windows/keyboard.rs` (not part of the
given sources) are abstracted into an oracle structure `OsApi`.
-/

/-- First-match lookup in an association list; models `HashMap::get`. -/
def alookup {α β : Type} [DecidableEq α] : List (α × β) → α → Option β
  | [], _ => none
  | (k, v) :: rest, a => if k = a then some v else alookup rest a

/-- Cons-insert into an association list; models `HashMap::insert`
(the newest entry shadows older ones under `alookup`). -/
def ainsert {α β : Type} (l : List (α × β)) (k : α) (v : β) : List (α × β) :=
  (k, v) :: l

/-- In-place update of every entry with the given key; models
`HashMap::get_mut` followed by an assignment (no entry is created). -/
def aset {α β : Type} [DecidableEq α] (l : List (α × β)) (k : α) (v : β) :
    List (α × β) :=
  l.map (fun p => if p.1 = k then (p.1, v) else p)

/-! ## Linux/X11 side: `platform_impl/linux/x11/util/modifiers.rs` -/

/-- Offsets within `XModifierKeymap` to each set of keycodes
(order: Shift, Lock, Control, Mod1, Mod2, Mod3, Mod4, Mod5). -/
def SHIFT_OFFSET : Nat := 0

/-- Offset of the Control slot in the X modifier table. -/
def CONTROL_OFFSET : Nat := 2

/-- Offset of the Mod1 (Alt) slot in the X modifier table. -/
def ALT_OFFSET : Nat := 3

/-- Offset of the Mod4 (Logo) slot in the X modifier table. -/
def LOGO_OFFSET : Nat := 6

/-- Number of modifier slots in the X modifier table. -/
def NUM_MODS : Nat := 8

/-- The four modifiers tracked by the X11 backend. -/
inductive Modifier : Type
  | Alt
  | Ctrl
  | Shift
  | Logo
deriving DecidableEq

/-- Modelled from the spec: `crate::keyboard::ModifiersState` is not among the
given sources; the spec (§2.2, §4.2) describes it as a bitset over
{Shift, Ctrl/Control, Alt, Logo/Super} with per-flag `set` and the accessors
`shift_key`, `control_key`, `alt_key`, `super_key`. -/
structure ModifiersState : Type where
  shift_key : Bool
  control_key : Bool
  alt_key : Bool
  super_key : Bool
deriving DecidableEq

/-- The four flag constants of `ModifiersState` used by `modifiers.rs`. -/
inductive MFlag : Type
  | SHIFT
  | CONTROL
  | ALT
  | SUPER
deriving DecidableEq

/-- Modelled from the spec: bitflags `set(flag, value)` writes one flag. -/
def ModifiersState.set (s : ModifiersState) (f : MFlag) (v : Bool) :
    ModifiersState :=
  match f with
  | MFlag.SHIFT => { s with shift_key := v }
  | MFlag.CONTROL => { s with control_key := v }
  | MFlag.ALT => { s with alt_key := v }
  | MFlag.SUPER => { s with super_key := v }

/-- The all-clear `ModifiersState`. -/
def ModifiersState.empty : ModifiersState :=
  ⟨false, false, false, false⟩

/-- Modelled from the spec: `crate::event::ElementState` (not among the given
sources) is the two-state press/release tag used by `key_event`. -/
inductive ElementState : Type
  | Pressed
  | Released
deriving DecidableEq

/-- `ModifierKeymap`: maps keycodes to modifiers. -/
structure ModifierKeymap : Type where
  keys : List (Nat × Modifier)
deriving DecidableEq

/-- The raw `XModifierKeymap`: `max_keypermod` and the flat
`8 * max_keypermod` keycode buffer. -/
structure XModifierKeymap : Type where
  max_keypermod : Nat
  modifiermap : List Nat
deriving DecidableEq

/-- `ModifierKeymap::new` / `Default::default`. -/
def ModifierKeymap.new : ModifierKeymap := ⟨[]⟩

/-- `ModifierKeymap::get_modifier`. -/
def ModifierKeymap.get_modifier (m : ModifierKeymap) (keycode : Nat) :
    Option Modifier :=
  alookup m.keys keycode

/-- The slice `keys[offset*keys_per_mod .. offset*keys_per_mod+keys_per_mod]`
read by `read_x_keys`. -/
def xslot (keys : List Nat) (offset keys_per_mod : Nat) : List Nat :=
  (keys.drop (offset * keys_per_mod)).take keys_per_mod

/-- `ModifierKeymap::read_x_keys`: inserts every non-zero keycode of one
fixed-width slot, mapping it to `modifier`. -/
def read_x_keys (mkeys : List (Nat × Modifier)) (keys : List Nat)
    (offset keys_per_mod : Nat) (modifier : Modifier) :
    List (Nat × Modifier) :=
  (xslot keys offset keys_per_mod).foldl
    (fun acc keycode =>
      if keycode ≠ 0 then ainsert acc keycode modifier else acc)
    mkeys

/-- `ModifierKeymap::reset_from_x_keymap`: clears the map and repopulates it
from the Shift, Control, Alt and Logo slots, in that order. -/
def ModifierKeymap.reset_from_x_keymap (keymap : XModifierKeymap) :
    ModifierKeymap :=
  let keys_per_mod := keymap.max_keypermod
  let keys := keymap.modifiermap
  ⟨read_x_keys
    (read_x_keys
      (read_x_keys
        (read_x_keys [] keys SHIFT_OFFSET keys_per_mod Modifier.Shift)
        keys CONTROL_OFFSET keys_per_mod Modifier.Ctrl)
      keys ALT_OFFSET keys_per_mod Modifier.Alt)
    keys LOGO_OFFSET keys_per_mod Modifier.Logo⟩

/-- `ModifierKeyState`: the tracker's currently pressed modifiers. -/
structure ModifierKeyState : Type where
  state : ModifiersState
deriving DecidableEq

/-- Free function `set_modifier`. -/
def set_modifier (state : ModifiersState) (modifier : Modifier) (value : Bool) :
    ModifiersState :=
  match modifier with
  | Modifier.Alt => state.set MFlag.ALT value
  | Modifier.Ctrl => state.set MFlag.CONTROL value
  | Modifier.Shift => state.set MFlag.SHIFT value
  | Modifier.Logo => state.set MFlag.SUPER value

/-- `ModifierKeyState::key_press`. -/
def ModifierKeyState.key_press (s : ModifierKeyState) (modifier : Modifier) :
    ModifierKeyState :=
  ⟨set_modifier s.state modifier true⟩

/-- `ModifierKeyState::key_release`. -/
def ModifierKeyState.key_release (s : ModifierKeyState) (modifier : Modifier) :
    ModifierKeyState :=
  ⟨set_modifier s.state modifier false⟩

/-- `ModifierKeyState::key_event`. -/
def ModifierKeyState.key_event (s : ModifierKeyState) (state : ElementState)
    (modifier : Modifier) : ModifierKeyState :=
  match state with
  | ElementState.Pressed => s.key_press modifier
  | ElementState.Released => s.key_release modifier

/-- `ModifierKeyState::modifiers`. -/
def ModifierKeyState.modifiers (s : ModifierKeyState) : ModifiersState :=
  s.state

/-- `ModifierKeyState::update_state`: substitutes the tracked bit for the
excepted modifier, then returns the new state only when it differs from the
previously tracked one.  Returns `(returned value, new tracker)`. -/
def ModifierKeyState.update_state (s : ModifierKeyState)
    (state : ModifiersState) (except : Option Modifier) :
    Option ModifiersState × ModifierKeyState :=
  let new_state :=
    match except with
    | some Modifier.Alt => state.set MFlag.ALT s.state.alt_key
    | some Modifier.Ctrl => state.set MFlag.CONTROL s.state.control_key
    | some Modifier.Shift => state.set MFlag.SHIFT s.state.shift_key
    | some Modifier.Logo => state.set MFlag.SUPER s.state.super_key
    | none => state
  if s.state = new_state then
    (none, s)
  else
    (some new_state, ⟨new_state⟩)

/-- The bit of `ModifiersState` that a `Modifier` governs (used only to state
properties; mirrors the per-modifier accessors of the source). -/
def modifier_bit (s : ModifiersState) (m : Modifier) : Bool :=
  match m with
  | Modifier.Alt => s.alt_key
  | Modifier.Ctrl => s.control_key
  | Modifier.Shift => s.shift_key
  | Modifier.Logo => s.super_key

/-- The flag of `ModifiersState` that a `Modifier` governs. -/
def modifier_flag (m : Modifier) : MFlag :=
  match m with
  | Modifier.Alt => MFlag.ALT
  | Modifier.Ctrl => MFlag.CONTROL
  | Modifier.Shift => MFlag.SHIFT
  | Modifier.Logo => MFlag.SUPER

/-- The reconciled state of `update_state` as the spec describes it:
`external` with the excepted modifier's bit replaced by the tracked bit. -/
def reconciled_state (s : ModifierKeyState) (state : ModifiersState)
    (except : Option Modifier) : ModifiersState :=
  match except with
  | some m => state.set (modifier_flag m) (modifier_bit s.state m)
  | none => state

/-! ## Windows side: `platform_impl/windows/keyboard_layout.rs` -/

/-- The `WindowsModifiers` bitflags live in a `u8`; we use `Nat` bit values. -/
def WindowsModifiers.SHIFT : Nat := 1

/-- `WindowsModifiers::CONTROL = 1 << 1`. -/
def WindowsModifiers.CONTROL : Nat := 2

/-- `WindowsModifiers::ALT = 1 << 2`. -/
def WindowsModifiers.ALT : Nat := 4

/-- `WindowsModifiers::CAPS_LOCK = 1 << 3`. -/
def WindowsModifiers.CAPS_LOCK : Nat := 8

/-- `WindowsModifiers::FLAGS_END = 1 << 4`. -/
def WindowsModifiers.FLAGS_END : Nat := 16

/-- bitflags `contains`: all bits of `f` are present in `s`. -/
def WindowsModifiers.contains (s f : Nat) : Bool :=
  s &&& f == f

/-- bitflags `intersects`: some bit of `f` is present in `s`. -/
def WindowsModifiers.intersects (s f : Nat) : Bool :=
  s &&& f != 0

/-- bitflags `insert`. -/
def WindowsModifiers.insert (s f : Nat) : Nat :=
  s ||| f

/-- bitflags `remove`: `bits &= !other.bits` inside a `u8`
(`255 - f` is the u8 complement of a flag value `f ≤ 255`). -/
def WindowsModifiers.remove (s f : Nat) : Nat :=
  s &&& (255 - f)

/-- `WindowsModifiers::remove_only_ctrl`. -/
def WindowsModifiers.remove_only_ctrl (m : Nat) : Nat :=
  if ¬ WindowsModifiers.contains m WindowsModifiers.ALT then
    WindowsModifiers.remove m WindowsModifiers.CONTROL
  else
    m

/-- The 256-byte keyboard state array, as a function from index to byte. -/
def KeyState : Type := Nat → Nat

/-- The all-zero keyboard state (`[0u8; 256]`). -/
def zero_key_state : KeyState := fun _ => 0

/-- `key_state[i] |= 0x80`. -/
def ks_or80 (i : Nat) (s : KeyState) : KeyState :=
  fun x => if x = i then s i ||| 0x80 else s x

/-- `key_state[i] &= !0x80` (u8: mask with `0x7F`). -/
def ks_and7f (i : Nat) (s : KeyState) : KeyState :=
  fun x => if x = i then s i &&& 0x7F else s x

/-- Windows virtual-key numbers used by the source. -/
def VK_SHIFT : Nat := 0x10

/-- `VK_CONTROL`. -/
def VK_CONTROL : Nat := 0x11

/-- `VK_MENU` (Alt). -/
def VK_MENU : Nat := 0x12

/-- `VK_CAPITAL` (Caps Lock). -/
def VK_CAPITAL : Nat := 0x14

/-- `VK_LSHIFT`. -/
def VK_LSHIFT : Nat := 0xA0

/-- `VK_RSHIFT`. -/
def VK_RSHIFT : Nat := 0xA1

/-- `VK_LCONTROL`. -/
def VK_LCONTROL : Nat := 0xA2

/-- `VK_RCONTROL`. -/
def VK_RCONTROL : Nat := 0xA3

/-- `VK_LMENU`. -/
def VK_LMENU : Nat := 0xA4

/-- `VK_RMENU`. -/
def VK_RMENU : Nat := 0xA5

/-- `WindowsModifiers::active_modifiers`: samples Shift/Control/Alt from the
0x80 "down" bit of the generic and left/right virtual keys, and Caps Lock
from the 0x01 toggle bit.  (The source's `println!` debug line is an
effect-free side channel and has no counterpart here.) -/
def WindowsModifiers.active_modifiers (key_state : KeyState) : Nat :=
  let shift := key_state VK_SHIFT &&& 0x80 != 0
  let lshift := key_state VK_LSHIFT &&& 0x80 != 0
  let rshift := key_state VK_RSHIFT &&& 0x80 != 0
  let control := key_state VK_CONTROL &&& 0x80 != 0
  let lcontrol := key_state VK_LCONTROL &&& 0x80 != 0
  let rcontrol := key_state VK_RCONTROL &&& 0x80 != 0
  let alt := key_state VK_MENU &&& 0x80 != 0
  let lalt := key_state VK_LMENU &&& 0x80 != 0
  let ralt := key_state VK_RMENU &&& 0x80 != 0
  let caps := key_state VK_CAPITAL &&& 0x01 != 0
  let result := 0
  let result :=
    if shift || lshift || rshift then
      WindowsModifiers.insert result WindowsModifiers.SHIFT
    else result
  let result :=
    if control || lcontrol || rcontrol then
      WindowsModifiers.insert result WindowsModifiers.CONTROL
    else result
  let result :=
    if alt || lalt || ralt then
      WindowsModifiers.insert result WindowsModifiers.ALT
    else result
  let result :=
    if caps then
      WindowsModifiers.insert result WindowsModifiers.CAPS_LOCK
    else result
  result

/-- `WindowsModifiers::apply_to_kbd_state`: for each flag, either sets the
0x80 bit of the generic virtual key or clears it on the generic and the
left/right variants (Caps Lock has no variants). -/
def WindowsModifiers.apply_to_kbd_state (m : Nat) (s0 : KeyState) : KeyState :=
  let s1 :=
    if WindowsModifiers.intersects m WindowsModifiers.SHIFT then
      ks_or80 VK_SHIFT s0
    else
      ks_and7f VK_RSHIFT (ks_and7f VK_LSHIFT (ks_and7f VK_SHIFT s0))
  let s2 :=
    if WindowsModifiers.intersects m WindowsModifiers.CONTROL then
      ks_or80 VK_CONTROL s1
    else
      ks_and7f VK_RCONTROL (ks_and7f VK_LCONTROL (ks_and7f VK_CONTROL s1))
  let s3 :=
    if WindowsModifiers.intersects m WindowsModifiers.ALT then
      ks_or80 VK_MENU s2
    else
      ks_and7f VK_RMENU (ks_and7f VK_LMENU (ks_and7f VK_MENU s2))
  if WindowsModifiers.intersects m WindowsModifiers.CAPS_LOCK then
    ks_or80 VK_CAPITAL s3
  else
    ks_and7f VK_CAPITAL s3

/-! ### Layout builder -/

/-- `KeyCode`: the logical key codes the claims are about, plus an opaque
constructor for everything else produced by `native_key_to_code`. -/
inductive KeyCode : Type
  | AltRight
  | NumpadDivide
  | Other (n : Nat)
deriving DecidableEq

/-- `NativeKeyCode::Windows(scancode)`. -/
inductive NativeKeyCode : Type
  | Windows (scancode : Nat)
deriving DecidableEq

/-- `Key`: the resolved-key sum type.  `NonPrintable` stands for the named
non-printable variants (arrows, function keys, …) that
`vkey_to_non_printable` can produce besides the ones listed here. -/
inductive Key : Type
  | Character (s : String)
  | Unidentified (code : NativeKeyCode)
  | Dead (c : Option Char)
  | AltGraph
  | NonPrintable (tag : Nat)
deriving DecidableEq

/-- Whether a `Key` is the `Unidentified` placeholder (the pattern
`Key::Unidentified(_)` of the source's `match`). -/
def Key.isUnidentified : Key → Bool
  | Key.Unidentified _ => true
  | _ => false

/-- One raw answer of `ToUnicodeEx`: the returned length and — when the
length is positive — the buffer's first `len` UTF-16 units decoded to a
string (`none` when `OsString::into_string` would fail). -/
structure ToUnicodeReply : Type where
  len : Int
  text : Option String
deriving DecidableEq

/-- The oracle for everything the layout builder asks of the OS (for one
fixed locale) and of `platform_impl/windows/keyboard.rs`, which is not among
the given sources:
* `map_vk_to_vsc vk` — `MapVirtualKeyExW(vk, MAPVK_VK_TO_VSC_EX, locale)`;
* `key_to_code sc` — modelled from the spec: `native_key_to_code` maps a
  native scancode to a layout-independent logical `KeyCode`;
* `non_printable vk native_code key_code` — modelled from the spec:
  `vkey_to_non_printable` attempts a locale-independent non-printable
  resolution and yields `Key::Unidentified(native_code)` when it fails (the
  source also passes `locale_id` and a constant `false`, both absorbed here);
* `to_unicode call ks vk sc` — the reply of the `call`-th consecutive
  `ToUnicodeEx` invocation (`call = 0` or `1`; the OS dead-key state makes
  the two calls of the dead-key protocol observably different);
* `current_locale` — `GetKeyboardLayout(0)`. -/
structure OsApi : Type where
  map_vk_to_vsc : Nat → Nat
  key_to_code : Nat → KeyCode
  non_printable : Nat → NativeKeyCode → KeyCode → Key
  to_unicode : Nat → KeyState → Nat → Nat → ToUnicodeReply
  current_locale : Nat

/-- The `ToUnicodeResult` enum of the source. -/
inductive ToUnicodeResult : Type
  | Str (s : String)
  | Dead (c : Option Char)
  | None
deriving DecidableEq

/-- `LayoutCache::to_unicode_string`: one `ToUnicodeEx` call; on a negative
length (dead key) a second identical call consumes the dead-key state and a
character it returns becomes the combining character; otherwise a positive
length decodes to a string. -/
def to_unicode_string (os : OsApi) (key_state : KeyState)
    (vkey scancode : Nat) : ToUnicodeResult :=
  let r1 := os.to_unicode 0 key_state vkey scancode
  if r1.len < 0 then
    let r2 := os.to_unicode 1 key_state vkey scancode
    if 0 < r2.len then
      match r2.text with
      | some s =>
        match s.data with
        | c :: _ => ToUnicodeResult.Dead (some c)
        | [] => ToUnicodeResult.Dead none
      | none => ToUnicodeResult.Dead none
    else
      ToUnicodeResult.Dead none
  else if 0 < r1.len then
    match r1.text with
    | some s => ToUnicodeResult.Str s
    | none => ToUnicodeResult.None
  else
    ToUnicodeResult.None

/-- `get_or_insert_str`: returns the stored string when an equal one exists,
otherwise inserts (the source leaks the box to obtain `&'static str`; here
the pool element itself is returned). -/
def get_or_insert_str (strings : List String) (s : String) :
    String × List String :=
  match strings.find? (fun t => t == s) with
  | some t => (t, strings)
  | none => (s, s :: strings)

/-- A `Layout`: modifier bitset ↦ (key code ↦ key), plus the AltGr flag. -/
structure Layout : Type where
  keys : List (Nat × List (KeyCode × Key))
  has_alt_graph : Bool
deriving DecidableEq

/-- `Layout::get_key`. -/
def Layout.get_key (l : Layout) (mods : Nat) (scancode : Nat)
    (keycode : KeyCode) : Key :=
  match alookup l.keys mods with
  | some keys =>
    match alookup keys keycode with
    | some key => key
    | none => Key.Unidentified (NativeKeyCode.Windows scancode)
  | none => Key.Unidentified (NativeKeyCode.Windows scancode)

/-- `LayoutCache`. -/
structure LayoutCache : Type where
  layouts : List (Nat × Layout)
  strings : List String
deriving DecidableEq

/-- The state threaded through `prepare_layout`'s first pass: the mutable
`key_state` array, the string pool and the layout under construction. -/
structure BuildSt : Type where
  key_state : KeyState
  strings : List String
  layout : Layout

/-- The dead-key/character/fallback resolution for one virtual key of the
composition path of `prepare_layout` (the `match unicode { … }` block),
returning the key together with the possibly-grown string pool. -/
def resolve_unicode_key (os : OsApi) (mod_state : Nat) (key_state : KeyState)
    (strings : List String) (vk scancode : Nat) (key_code : KeyCode)
    (preliminary_key : Key) : Key × List String :=
  match to_unicode_string os key_state vk scancode with
  | ToUnicodeResult.Str s =>
    let r := get_or_insert_str strings s
    (Key.Character r.1, r.2)
  | ToUnicodeResult.Dead dead_char => (Key.Dead dead_char, strings)
  | ToUnicodeResult.None =>
    let has_alt := WindowsModifiers.contains mod_state WindowsModifiers.ALT
    let has_ctrl :=
      WindowsModifiers.contains mod_state WindowsModifiers.CONTROL
    if ¬ has_alt && ¬ has_ctrl && key_code = KeyCode.NumpadDivide then
      (Key.Character "/", strings)
    else
      (preliminary_key, strings)

/-- The value `has_alt_graph` takes after the AltGr-detection block of
`prepare_layout` for one virtual key: while processing exactly the
Control+Alt bitset and while `has_alt_graph` is still unset, compare the
`Character` just resolved with the `Character` stored for the same key code
under the empty bitset; in every other case the flag is left alone. -/
def altgr_flag (layout : Layout) (mod_state : Nat) (key_code : KeyCode)
    (key : Key) : Bool :=
  let ctrl_alt :=
    WindowsModifiers.CONTROL ||| WindowsModifiers.ALT
  if ¬ layout.has_alt_graph && mod_state = ctrl_alt then
    let simple_keys := (alookup layout.keys 0).getD []
    match alookup simple_keys key_code with
    | some (Key.Character key_no_altgr) =>
      match key with
      | Key.Character k => k ≠ key_no_altgr
      | _ => layout.has_alt_graph
    | _ => layout.has_alt_graph
  else
    layout.has_alt_graph

/-- The AltGr-detection block of `prepare_layout`, which mutates only the
`has_alt_graph` field of the layout under construction. -/
def altgr_update (layout : Layout) (mod_state : Nat) (key_code : KeyCode)
    (key : Key) : Layout :=
  { layout with has_alt_graph := altgr_flag layout mod_state key_code key }

/-- The body of `prepare_layout`'s inner loop for one virtual key `vk`:
skip on zero scancode; store a non-`Unidentified` preliminary key directly;
otherwise resolve through `ToUnicodeEx`, run the AltGr check and store.
The threaded triple is `(strings, layout, keys_for_this_mod)`. -/
def process_vk (os : OsApi) (mod_state : Nat) (key_state : KeyState)
    (st : List String × Layout × List (KeyCode × Key)) (vk : Nat) :
    List String × Layout × List (KeyCode × Key) :=
  let scancode := os.map_vk_to_vsc vk
  if scancode = 0 then
    st
  else
    let native_code := NativeKeyCode.Windows scancode
    let key_code := os.key_to_code scancode
    let preliminary_key := os.non_printable vk native_code key_code
    match preliminary_key with
    | Key.Unidentified _ =>
      let r := resolve_unicode_key os mod_state key_state st.1 vk scancode
        key_code preliminary_key
      (r.2, altgr_update st.2.1 mod_state key_code r.1,
        ainsert st.2.2 key_code r.1)
    | _ => (st.1, st.2.1, ainsert st.2.2 key_code preliminary_key)

/-- One iteration of `prepare_layout`'s outer loop: update the keyboard
state for `mod_state`, run the inner loop over all 256 virtual keys with a
fresh `keys_for_this_mod`, and insert the finished table. -/
def process_mod (os : OsApi) (st : BuildSt) (mod_state : Nat) : BuildSt :=
  let key_state := WindowsModifiers.apply_to_kbd_state mod_state st.key_state
  let r := (List.range 256).foldl (process_vk os mod_state key_state)
    (st.strings, st.layout, [])
  { key_state := key_state
    strings := r.1
    layout :=
      { keys := ainsert r.2.1.keys mod_state r.2.2
        has_alt_graph := r.2.1.has_alt_graph } }

/-- The initial `BuildSt` of `prepare_layout`: zeroed keyboard state, the
cache's string pool, and an empty layout with `has_alt_graph = false`. -/
def first_pass_init (strings : List String) : BuildSt :=
  ⟨zero_key_state, strings, ⟨[], false⟩⟩

/-- The first pass of `prepare_layout` after the first `n` modifier bitsets
(bitsets are enumerated in increasing numeric order `0..16`). -/
def first_pass_upto (os : OsApi) (strings : List String) (n : Nat) : BuildSt :=
  (List.range n).foldl (process_mod os) (first_pass_init strings)

/-- The intermediate `(strings, layout, keys_for_this_mod)` state reached
inside the inner loop of modifier bitset `m`, after the first `j` virtual
keys, starting from build state `st`. -/
def inner_state (os : OsApi) (st : BuildSt) (m j : Nat) :
    List String × Layout × List (KeyCode × Key) :=
  (List.range j).foldl
    (process_vk os m (WindowsModifiers.apply_to_kbd_state m st.key_state))
    (st.strings, st.layout, [])

/-- One step of the second pass of `prepare_layout`: if the table for this
bitset exists and has an `AltRight` entry, overwrite it with `AltGraph`. -/
def patch_alt_right (ks : List (Nat × List (KeyCode × Key))) (m : Nat) :
    List (Nat × List (KeyCode × Key)) :=
  match alookup ks m with
  | some keys =>
    match alookup keys KeyCode.AltRight with
    | some _ => aset ks m (aset keys KeyCode.AltRight Key.AltGraph)
    | none => ks
  | none => ks

/-- `LayoutCache::prepare_layout`: the full first pass over the 16 modifier
bitsets followed by the AltGr second pass.  Returns the grown string pool
and the finished layout. -/
def prepare_layout (os : OsApi) (strings : List String) :
    List String × Layout :=
  let st := first_pass_upto os strings 16
  let layout := st.layout
  if layout.has_alt_graph then
    (st.strings,
      { keys := (List.range 16).foldl patch_alt_right layout.keys
        has_alt_graph := layout.has_alt_graph })
  else
    (st.strings, layout)

/-- `LayoutCache::get_current_layout`: query the active locale; a cache hit
returns the stored layout unchanged, a miss builds the layout (growing the
string pool) and inserts it.  Returns `((locale_id, layout), new cache)`. -/
def LayoutCache.get_current_layout (cache : LayoutCache) (os : OsApi) :
    (Nat × Layout) × LayoutCache :=
  let locale_id := os.current_locale
  match alookup cache.layouts locale_id with
  | some layout => ((locale_id, layout), cache)
  | none =>
    let r := prepare_layout os cache.strings
    ((locale_id, r.2), ⟨ainsert cache.layouts locale_id r.2, r.1⟩)

/-- The keyboard state array as it stands when the outer loop begins
iteration `m` (the `key_state` local persists across iterations); this is
independent of the OS oracle. -/
def kbd_state_before (m : Nat) : KeyState :=
  (List.range m).foldl
    (fun s i => WindowsModifiers.apply_to_kbd_state i s) zero_key_state

/-- The keyboard state array the builder uses while processing modifier
bitset `m`. -/
def kbd_state_for (m : Nat) : KeyState :=
  WindowsModifiers.apply_to_kbd_state m (kbd_state_before m)

/-! ### Concrete instances used to instantiate the theorems -/

/-- A synthetic-locale oracle: virtual key 65 has scancode 30, is not a
non-printable key, and composes to "a" with no modifiers but to "b" when the
Control and Alt down-bits are both set; virtual key 165 (right Alt) has
scancode 56 and maps to the `AltRight` key code. -/
def c1_os : OsApi :=
  { map_vk_to_vsc := fun vk =>
      if vk = 65 then 30 else if vk = 165 then 56 else 0
    key_to_code := fun sc =>
      if sc = 30 then KeyCode.Other 4
      else if sc = 56 then KeyCode.AltRight
      else KeyCode.Other 0
    non_printable := fun vk nc _ =>
      if vk = 165 then Key.NonPrintable 1 else Key.Unidentified nc
    to_unicode := fun _ ks vk _ =>
      if vk = 65 then
        if (ks VK_MENU &&& 0x80 != 0) && (ks VK_CONTROL &&& 0x80 != 0) then
          ⟨1, some "b"⟩
        else
          ⟨1, some "a"⟩
      else
        ⟨0, none⟩
    current_locale := 1 }

/-- An oracle whose first composition call reports a dead key with the
combining character `´` in its buffer and whose second call yields
nothing. -/
def c2_os : OsApi :=
  { map_vk_to_vsc := fun _ => 0
    key_to_code := fun _ => KeyCode.Other 0
    non_printable := fun _ nc _ => Key.Unidentified nc
    to_unicode := fun call _ _ _ =>
      if call = 0 then ⟨-1, some "´"⟩ else ⟨0, none⟩
    current_locale := 1 }

/-- A raw X modifier table with two keycodes per modifier: keycode 5 in the
Shift slot, 7 in the Control slot, 9 in the Mod1 (Alt) slot, 11 in the Mod4
(Logo) slot, and 13 in the Lock slot (which the parser does not read). -/
def c7_keymap : XModifierKeymap :=
  { max_keypermod := 2
    modifiermap := [5, 0, 13, 0, 7, 0, 9, 0, 0, 0, 0, 0, 11, 0, 0, 0] }

/-- A trivial layout used to pre-populate a cache. -/
def c10_layout : Layout := ⟨[], false⟩

/-- A cache that already holds a layout for locale 5. -/
def c10_cache : LayoutCache := ⟨[(5, c10_layout)], ["x"]⟩

/-- An oracle whose active locale is 5 (a cache hit for `c10_cache`). -/
def c10_os : OsApi :=
  { map_vk_to_vsc := fun _ => 0
    key_to_code := fun _ => KeyCode.Other 0
    non_printable := fun _ nc _ => Key.Unidentified nc
    to_unicode := fun _ _ _ _ => ⟨0, none⟩
    current_locale := 5 }

/-! ## Association-list lemmas -/

/-- Lookup after a cons-insert. -/
theorem alookup_ainsert {α β : Type} [DecidableEq α] (l : List (α × β))
    (k : α) (v : β) (a : α) :
    alookup (ainsert l k v) a = if k = a then some v else alookup l a := by
  simp [ainsert, alookup]

/-- Lookup of the just-inserted key. -/
theorem alookup_ainsert_self {α β : Type} [DecidableEq α] (l : List (α × β))
    (k : α) (v : β) : alookup (ainsert l k v) k = some v := by
  simp [alookup_ainsert]

/-- Lookup of a different key after a cons-insert. -/
theorem alookup_ainsert_ne {α β : Type} [DecidableEq α] (l : List (α × β))
    (k : α) (v : β) (a : α) (h : k ≠ a) :
    alookup (ainsert l k v) a = alookup l a := by
  simp [alookup_ainsert, h]

/-- Unfolding `aset` over a cons cell. -/
theorem aset_cons {α β : Type} [DecidableEq α] (pk : α) (pv : β)
    (rest : List (α × β)) (k : α) (v : β) :
    aset ((pk, pv) :: rest) k v
      = (if pk = k then (pk, v) else (pk, pv)) :: aset rest k v := by
  by_cases hk : pk = k
  · simp [aset, hk]
  · simp [aset, hk]

/-- `aset` does not touch other keys. -/
theorem alookup_aset_ne {α β : Type} [DecidableEq α] (l : List (α × β))
    (k : α) (v : β) (a : α) (h : k ≠ a) :
    alookup (aset l k v) a = alookup l a := by
  induction l with
  | nil => rfl
  | cons p rest ih =>
    obtain ⟨pk, pv⟩ := p
    rw [aset_cons]
    by_cases hk : pk = k
    · subst hk
      rw [if_pos rfl]
      have hka : pk ≠ a := h
      simp [alookup, hka, ih]
    · rw [if_neg hk]
      by_cases ha : pk = a
      · simp [alookup, ha]
      · simp [alookup, ha, ih]

/-- `aset` overwrites the value at the key iff the key is present. -/
theorem alookup_aset_self {α β : Type} [DecidableEq α] (l : List (α × β))
    (k : α) (v : β) :
    alookup (aset l k v) k = (alookup l k).map (fun _ => v) := by
  induction l with
  | nil => rfl
  | cons p rest ih =>
    obtain ⟨pk, pv⟩ := p
    rw [aset_cons]
    by_cases hk : pk = k
    · subst hk
      rw [if_pos rfl]
      simp [alookup]
    · rw [if_neg hk]
      simp [alookup, hk, ih]

/-! ## C3, C8: the Windows modifier bitset -/

/-- C3: for every representable `WindowsModifiers` bitset `b`, sampling with
`active_modifiers` the key-state array obtained by applying `b` via
`apply_to_kbd_state` to the all-zero array reproduces `b` exactly on the
Shift, Control and Alt flags (Caps Lock is excluded: `apply_to_kbd_state`
sets its 0x80 down-bit while `active_modifiers` samples its 0x01 toggle
bit). -/
theorem c3_sample_synthesize_roundtrip (b : Nat) (hb : b < 16) :
    WindowsModifiers.contains
        (WindowsModifiers.active_modifiers
          (WindowsModifiers.apply_to_kbd_state b zero_key_state))
        WindowsModifiers.SHIFT
      = WindowsModifiers.contains b WindowsModifiers.SHIFT ∧
    WindowsModifiers.contains
        (WindowsModifiers.active_modifiers
          (WindowsModifiers.apply_to_kbd_state b zero_key_state))
        WindowsModifiers.CONTROL
      = WindowsModifiers.contains b WindowsModifiers.CONTROL ∧
    WindowsModifiers.contains
        (WindowsModifiers.active_modifiers
          (WindowsModifiers.apply_to_kbd_state b zero_key_state))
        WindowsModifiers.ALT
      = WindowsModifiers.contains b WindowsModifiers.ALT := by
  revert hb
  revert b
  decide

/-- Witness for C3 at the bitset Shift+Alt. -/
theorem c3_sample_synthesize_roundtrip_witness :
    (5 : Nat) < 16 ∧
    WindowsModifiers.contains
        (WindowsModifiers.active_modifiers
          (WindowsModifiers.apply_to_kbd_state 5 zero_key_state))
        WindowsModifiers.SHIFT
      = WindowsModifiers.contains 5 WindowsModifiers.SHIFT ∧
    WindowsModifiers.contains
        (WindowsModifiers.active_modifiers
          (WindowsModifiers.apply_to_kbd_state 5 zero_key_state))
        WindowsModifiers.CONTROL
      = WindowsModifiers.contains 5 WindowsModifiers.CONTROL ∧
    WindowsModifiers.contains
        (WindowsModifiers.active_modifiers
          (WindowsModifiers.apply_to_kbd_state 5 zero_key_state))
        WindowsModifiers.ALT
      = WindowsModifiers.contains 5 WindowsModifiers.ALT :=
  ⟨by decide, c3_sample_synthesize_roundtrip 5 (by decide)⟩

/-- C8: `remove_only_ctrl` leaves a bitset containing Alt unchanged, and on a
bitset without Alt it clears Control and preserves the other three flags. -/
theorem c8_remove_only_ctrl (b : Nat) (hb : b < 16) :
    (WindowsModifiers.contains b WindowsModifiers.ALT = false →
      WindowsModifiers.contains (WindowsModifiers.remove_only_ctrl b)
          WindowsModifiers.SHIFT
        = WindowsModifiers.contains b WindowsModifiers.SHIFT ∧
      WindowsModifiers.contains (WindowsModifiers.remove_only_ctrl b)
          WindowsModifiers.CONTROL = false ∧
      WindowsModifiers.contains (WindowsModifiers.remove_only_ctrl b)
          WindowsModifiers.ALT
        = WindowsModifiers.contains b WindowsModifiers.ALT ∧
      WindowsModifiers.contains (WindowsModifiers.remove_only_ctrl b)
          WindowsModifiers.CAPS_LOCK
        = WindowsModifiers.contains b WindowsModifiers.CAPS_LOCK) ∧
    (WindowsModifiers.contains b WindowsModifiers.ALT = true →
      WindowsModifiers.remove_only_ctrl b = b) := by
  revert hb
  revert b
  decide

/-- Witness for C8 at the bitset Shift+Control (Alt absent: Control is
cleared, Shift survives). -/
theorem c8_remove_only_ctrl_witness :
    (3 : Nat) < 16 ∧
    WindowsModifiers.contains 3 WindowsModifiers.ALT = false ∧
    (WindowsModifiers.contains (WindowsModifiers.remove_only_ctrl 3)
        WindowsModifiers.SHIFT
      = WindowsModifiers.contains 3 WindowsModifiers.SHIFT ∧
     WindowsModifiers.contains (WindowsModifiers.remove_only_ctrl 3)
        WindowsModifiers.CONTROL = false ∧
     WindowsModifiers.contains (WindowsModifiers.remove_only_ctrl 3)
        WindowsModifiers.ALT
      = WindowsModifiers.contains 3 WindowsModifiers.ALT ∧
     WindowsModifiers.contains (WindowsModifiers.remove_only_ctrl 3)
        WindowsModifiers.CAPS_LOCK
      = WindowsModifiers.contains 3 WindowsModifiers.CAPS_LOCK) :=
  ⟨by decide, by decide, (c8_remove_only_ctrl 3 (by decide)).1 (by decide)⟩

/-! ## C4, C5, C6: the modifier state tracker -/

/-- Counterexample to C4 as stated: when the modifier's bit is already set
in the starting bitset (here Shift), pressing and then releasing it does
not return the tracker to its prior bitset — the release clears the bit
(the tracker has no reference counting). -/
theorem c4_press_release_counterexample :
    ¬ ((ModifierKeyState.key_release
          (ModifierKeyState.key_press
            ⟨⟨true, false, false, false⟩⟩ Modifier.Shift)
          Modifier.Shift)
        = ⟨⟨true, false, false, false⟩⟩) := by
  decide

/-- C4 (amended): `key_press m` followed by `key_release m` returns the
tracker to its prior bitset provided `m`'s bit was not already set (when it
was, the release clears it); two presses of the same modifier are always
idempotent. -/
theorem c4_press_release_amended (st : ModifierKeyState) (m : Modifier) :
    (modifier_bit st.state m = false →
      (st.key_press m).key_release m = st) ∧
    (st.key_press m).key_press m = st.key_press m := by
  obtain ⟨⟨a, b, c, d⟩⟩ := st
  cases m <;> cases a <;> cases b <;> cases c <;> cases d <;>
    exact ⟨by decide, by decide⟩

/-- Witness for the amended C4 at the empty bitset and the Alt modifier. -/
theorem c4_press_release_amended_witness :
    modifier_bit (⟨⟨false, false, false, false⟩⟩ : ModifierKeyState).state
        Modifier.Alt = false ∧
    (ModifierKeyState.key_release
        (ModifierKeyState.key_press
          ⟨⟨false, false, false, false⟩⟩ Modifier.Alt) Modifier.Alt
      = (⟨⟨false, false, false, false⟩⟩ : ModifierKeyState)) ∧
    (ModifierKeyState.key_press
        (ModifierKeyState.key_press
          ⟨⟨false, false, false, false⟩⟩ Modifier.Alt) Modifier.Alt
      = ModifierKeyState.key_press
          ⟨⟨false, false, false, false⟩⟩ Modifier.Alt) :=
  ⟨by decide,
    (c4_press_release_amended ⟨⟨false, false, false, false⟩⟩
      Modifier.Alt).1 (by decide),
    (c4_press_release_amended ⟨⟨false, false, false, false⟩⟩
      Modifier.Alt).2⟩

/-- C5: `update_state` with `except = Some(Shift)` leaves the tracker's
Shift bit at its previous value whatever the external state reports, and
adopts the external Control, Alt and Super bits exactly. -/
theorem c5_update_state_except_shift (st : ModifierKeyState)
    (ext : ModifiersState) :
    ((st.update_state ext (some Modifier.Shift)).2).state.shift_key
      = st.state.shift_key ∧
    ((st.update_state ext (some Modifier.Shift)).2).state.control_key
      = ext.control_key ∧
    ((st.update_state ext (some Modifier.Shift)).2).state.alt_key
      = ext.alt_key ∧
    ((st.update_state ext (some Modifier.Shift)).2).state.super_key
      = ext.super_key := by
  obtain ⟨⟨a, b, c, d⟩⟩ := st
  obtain ⟨e, f, g, i⟩ := ext
  cases a <;> cases b <;> cases c <;> cases d <;>
    cases e <;> cases f <;> cases g <;> cases i <;> decide

/-- `update_state` in terms of the reconciled state. -/
theorem update_state_eq (s : ModifierKeyState) (ext : ModifiersState)
    (except : Option Modifier) :
    s.update_state ext except
      = if s.state = reconciled_state s ext except then (none, s)
        else (some (reconciled_state s ext except),
          ⟨reconciled_state s ext except⟩) := by
  cases except with
  | none => rfl
  | some m => cases m <;> rfl

/-- C6: `update_state` returns `None` exactly when the reconciled state
(external with the excepted modifier's bit replaced by the tracked bit)
equals the previously tracked state, leaving the tracker untouched; and
when they differ it stores the reconciled state and returns `Some` of it. -/
theorem c6_update_state_change_detection (st : ModifierKeyState)
    (ext : ModifiersState) (except : Option Modifier) :
    ((st.update_state ext except).1 = none ↔
      reconciled_state st ext except = st.state) ∧
    ((st.update_state ext except).1 = none →
      (st.update_state ext except).2 = st) ∧
    (reconciled_state st ext except ≠ st.state →
      ((st.update_state ext except).2).state = reconciled_state st ext except
      ∧ (st.update_state ext except).1
          = some (reconciled_state st ext except)) := by
  rw [update_state_eq]
  by_cases h : st.state = reconciled_state st ext except
  · rw [if_pos h]
    refine ⟨⟨fun _ => h.symm, fun _ => rfl⟩, fun _ => rfl, fun hne => ?_⟩
    exact absurd h.symm hne
  · rw [if_neg h]
    refine ⟨⟨fun hc => ?_, fun he => absurd he.symm h⟩,
      fun hc => ?_, fun _ => ⟨rfl, rfl⟩⟩
    · exact absurd hc (by simp)
    · exact absurd hc (by simp)

/-- Witness for C6: a no-op reconciliation (the external state differs from
the tracked one only in Shift, which is excepted) returns `None` and leaves
the tracker unchanged. -/
theorem c6_update_state_change_detection_witness :
    ((ModifierKeyState.update_state ⟨⟨false, false, false, false⟩⟩
        ⟨true, false, false, false⟩ (some Modifier.Shift)).1 = none) ∧
    ((ModifierKeyState.update_state ⟨⟨false, false, false, false⟩⟩
        ⟨true, false, false, false⟩ (some Modifier.Shift)).2
      = (⟨⟨false, false, false, false⟩⟩ : ModifierKeyState)) := by
  have h := c6_update_state_change_detection ⟨⟨false, false, false, false⟩⟩
    ⟨true, false, false, false⟩ (some Modifier.Shift)
  have hn : (ModifierKeyState.update_state ⟨⟨false, false, false, false⟩⟩
      ⟨true, false, false, false⟩ (some Modifier.Shift)).1 = none :=
    h.1.mpr (by decide)
  exact ⟨hn, h.2.1 hn⟩

/-! ## C2: the dead-key protocol -/

/-- Counterexample to C2 as stated: with a first composition call that
signals a dead key and carries the combining character `´` in its buffer,
and a second call that yields nothing, `to_unicode_string` resolves to
`Dead(None)`, not `Dead(Some('´'))` — the first call's buffer is never
read. -/
theorem c2_dead_key_counterexample :
    (c2_os.to_unicode 0 zero_key_state 65 30).len < 0 ∧
    (c2_os.to_unicode 0 zero_key_state 65 30).text = some "´" ∧
    (c2_os.to_unicode 1 zero_key_state 65 30).len = 0 ∧
    to_unicode_string c2_os zero_key_state 65 30
      ≠ ToUnicodeResult.Dead (some '´') := by
  refine ⟨by decide, by decide, by decide, by decide⟩

/-- C2 (amended): a virtual key whose first composition call signals a dead
key (whatever combining character that call's buffer carries) and whose
second call yields nothing resolves to `Dead(None)`; a combining character
is captured only from the second call's output. -/
theorem c2_dead_key_amended (os : OsApi) (ks : KeyState)
    (vkey scancode : Nat)
    (h1 : (os.to_unicode 0 ks vkey scancode).len < 0)
    (h2 : (os.to_unicode 1 ks vkey scancode).len ≤ 0) :
    to_unicode_string os ks vkey scancode = ToUnicodeResult.Dead none := by
  unfold to_unicode_string
  rw [if_pos h1, if_neg (by omega)]

/-- Witness for the amended C2 on the concrete dead-key oracle. -/
theorem c2_dead_key_amended_witness :
    (c2_os.to_unicode 0 zero_key_state 65 30).len < 0 ∧
    (c2_os.to_unicode 1 zero_key_state 65 30).len ≤ 0 ∧
    to_unicode_string c2_os zero_key_state 65 30
      = ToUnicodeResult.Dead none :=
  ⟨by decide, by decide,
    c2_dead_key_amended c2_os zero_key_state 65 30 (by decide) (by decide)⟩

/-! ## C7: the modifier keymap -/

/-- Folding one slot over keycodes that do not include `k` leaves the map's
value at `k` unchanged (zero entries are skipped anyway). -/
theorem read_slot_not_mem (modifier : Modifier) (k : Nat) :
    ∀ (l : List Nat) (acc : List (Nat × Modifier)), k ∉ l →
      alookup
        (l.foldl
          (fun acc keycode =>
            if keycode ≠ 0 then ainsert acc keycode modifier else acc) acc)
        k = alookup acc k := by
  intro l
  induction l with
  | nil => intro acc _; rfl
  | cons a rest ih =>
    intro acc hmem
    have hak : a ≠ k := fun h => hmem (h ▸ List.mem_cons_self a rest)
    have hrest : k ∉ rest := fun h => hmem (List.mem_cons_of_mem a h)
    simp only [List.foldl_cons]
    rw [ih _ hrest]
    by_cases ha : a ≠ 0
    · rw [if_pos ha, alookup_ainsert_ne _ _ _ _ hak]
    · rw [if_neg ha]

/-- Folding one slot that contains the non-zero keycode `k` maps `k` to this
slot's modifier. -/
theorem read_slot_mem (modifier : Modifier) (k : Nat) (hk : k ≠ 0) :
    ∀ (l : List Nat) (acc : List (Nat × Modifier)), k ∈ l →
      alookup
        (l.foldl
          (fun acc keycode =>
            if keycode ≠ 0 then ainsert acc keycode modifier else acc) acc)
        k = some modifier := by
  intro l
  induction l with
  | nil => intro acc h; cases h
  | cons a rest ih =>
    intro acc hmem
    simp only [List.foldl_cons]
    by_cases hrest : k ∈ rest
    · exact ih _ hrest
    · have hak : k = a := by
        rcases List.mem_cons.mp hmem with h | h
        · exact h
        · exact absurd h hrest
      subst hak
      rw [if_pos hk, read_slot_not_mem modifier k rest _ hrest,
        alookup_ainsert_self]

/-- C7: after `reset_from_x_keymap`, a non-zero keycode lying in exactly one
of the four tracked slots (Shift, Control, Alt/Mod1, Logo/Mod4) resolves to
that slot's modifier, and a keycode absent from all four slots resolves to
nothing. -/
theorem c7_keymap_exact_slot (km : XModifierKeymap) (k : Nat) :
    (k ∉ xslot km.modifiermap SHIFT_OFFSET km.max_keypermod →
     k ∉ xslot km.modifiermap CONTROL_OFFSET km.max_keypermod →
     k ∉ xslot km.modifiermap ALT_OFFSET km.max_keypermod →
     k ∉ xslot km.modifiermap LOGO_OFFSET km.max_keypermod →
     (ModifierKeymap.reset_from_x_keymap km).get_modifier k = none) ∧
    (k ≠ 0 →
     k ∈ xslot km.modifiermap SHIFT_OFFSET km.max_keypermod →
     k ∉ xslot km.modifiermap CONTROL_OFFSET km.max_keypermod →
     k ∉ xslot km.modifiermap ALT_OFFSET km.max_keypermod →
     k ∉ xslot km.modifiermap LOGO_OFFSET km.max_keypermod →
     (ModifierKeymap.reset_from_x_keymap km).get_modifier k
       = some Modifier.Shift) ∧
    (k ≠ 0 →
     k ∉ xslot km.modifiermap SHIFT_OFFSET km.max_keypermod →
     k ∈ xslot km.modifiermap CONTROL_OFFSET km.max_keypermod →
     k ∉ xslot km.modifiermap ALT_OFFSET km.max_keypermod →
     k ∉ xslot km.modifiermap LOGO_OFFSET km.max_keypermod →
     (ModifierKeymap.reset_from_x_keymap km).get_modifier k
       = some Modifier.Ctrl) ∧
    (k ≠ 0 →
     k ∉ xslot km.modifiermap SHIFT_OFFSET km.max_keypermod →
     k ∉ xslot km.modifiermap CONTROL_OFFSET km.max_keypermod →
     k ∈ xslot km.modifiermap ALT_OFFSET km.max_keypermod →
     k ∉ xslot km.modifiermap LOGO_OFFSET km.max_keypermod →
     (ModifierKeymap.reset_from_x_keymap km).get_modifier k
       = some Modifier.Alt) ∧
    (k ≠ 0 →
     k ∉ xslot km.modifiermap SHIFT_OFFSET km.max_keypermod →
     k ∉ xslot km.modifiermap CONTROL_OFFSET km.max_keypermod →
     k ∉ xslot km.modifiermap ALT_OFFSET km.max_keypermod →
     k ∈ xslot km.modifiermap LOGO_OFFSET km.max_keypermod →
     (ModifierKeymap.reset_from_x_keymap km).get_modifier k
       = some Modifier.Logo) := by
  unfold ModifierKeymap.reset_from_x_keymap ModifierKeymap.get_modifier
  simp only [read_x_keys]
  refine ⟨fun h0 h2 h3 h6 => ?_, fun hk h0 h2 h3 h6 => ?_,
    fun hk h0 h2 h3 h6 => ?_, fun hk h0 h2 h3 h6 => ?_,
    fun hk h0 h2 h3 h6 => ?_⟩
  · rw [read_slot_not_mem _ _ _ _ h6, read_slot_not_mem _ _ _ _ h3,
      read_slot_not_mem _ _ _ _ h2, read_slot_not_mem _ _ _ _ h0]
    rfl
  · rw [read_slot_not_mem _ _ _ _ h6, read_slot_not_mem _ _ _ _ h3,
      read_slot_not_mem _ _ _ _ h2, read_slot_mem _ _ hk _ _ h0]
  · rw [read_slot_not_mem _ _ _ _ h6, read_slot_not_mem _ _ _ _ h3,
      read_slot_mem _ _ hk _ _ h2]
  · rw [read_slot_not_mem _ _ _ _ h6, read_slot_mem _ _ hk _ _ h3]
  · rw [read_slot_mem _ _ hk _ _ h6]

/-- Witness for C7: in the concrete table, keycode 7 lies only in the
Control slot and resolves to Ctrl. -/
theorem c7_keymap_exact_slot_witness :
    (ModifierKeymap.reset_from_x_keymap c7_keymap).get_modifier 7
      = some Modifier.Ctrl :=
  (c7_keymap_exact_slot c7_keymap 7).2.2.1 (by decide) (by decide)
    (by decide) (by decide) (by decide)

/-! ## Structural lemmas about the layout builder -/

/-- The AltGr check never touches the layout's key tables. -/
theorem altgr_update_keys (l : Layout) (m : Nat) (kc : KeyCode) (k : Key) :
    (altgr_update l m kc k).keys = l.keys :=
  rfl

/-- The AltGr check never clears `has_alt_graph`. -/
theorem altgr_update_hag_mono (l : Layout) (m : Nat) (kc : KeyCode) (k : Key)
    (h : l.has_alt_graph = true) :
    (altgr_update l m kc k).has_alt_graph = true := by
  show altgr_flag l m kc k = true
  unfold altgr_flag
  simp [h]

/-- One inner-loop step never touches the layout's key tables. -/
theorem process_vk_keys (os : OsApi) (m : Nat) (ks : KeyState)
    (st : List String × Layout × List (KeyCode × Key)) (vk : Nat) :
    ((process_vk os m ks st vk).2.1).keys = (st.2.1).keys := by
  simp only [process_vk]
  split
  · rfl
  · split
    · exact altgr_update_keys _ _ _ _
    · rfl

/-- One inner-loop step never clears `has_alt_graph`. -/
theorem process_vk_hag_mono (os : OsApi) (m : Nat) (ks : KeyState)
    (st : List String × Layout × List (KeyCode × Key)) (vk : Nat)
    (h : (st.2.1).has_alt_graph = true) :
    ((process_vk os m ks st vk).2.1).has_alt_graph = true := by
  simp only [process_vk]
  split
  · exact h
  · split
    · exact altgr_update_hag_mono _ _ _ _ h
    · exact h

/-- The whole inner loop never touches the layout's key tables. -/
theorem foldl_process_vk_keys (os : OsApi) (m : Nat) (ks : KeyState) :
    ∀ (l : List Nat) (acc : List String × Layout × List (KeyCode × Key)),
      (((l.foldl (process_vk os m ks) acc)).2.1).keys = (acc.2.1).keys := by
  intro l
  induction l with
  | nil => intro acc; rfl
  | cons a rest ih =>
    intro acc
    simp only [List.foldl_cons]
    rw [ih]
    exact process_vk_keys _ _ _ _ _

/-- The whole inner loop never clears `has_alt_graph`. -/
theorem foldl_process_vk_hag_mono (os : OsApi) (m : Nat) (ks : KeyState) :
    ∀ (l : List Nat) (acc : List String × Layout × List (KeyCode × Key)),
      (acc.2.1).has_alt_graph = true →
      ((l.foldl (process_vk os m ks) acc).2.1).has_alt_graph = true := by
  intro l
  induction l with
  | nil => intro acc h; exact h
  | cons a rest ih =>
    intro acc h
    simp only [List.foldl_cons]
    exact ih _ (process_vk_hag_mono _ _ _ _ _ h)

/-- Peeling the last modifier bitset off the first pass. -/
theorem first_pass_upto_succ (os : OsApi) (strings : List String) (n : Nat) :
    first_pass_upto os strings (n + 1)
      = process_mod os (first_pass_upto os strings n) n := by
  unfold first_pass_upto
  rw [List.range_succ, List.foldl_append]
  rfl

/-- `process_mod` inserts a table for its own bitset. -/
theorem process_mod_lookup_self (os : OsApi) (st : BuildSt) (m : Nat) :
    (alookup ((process_mod os st m).layout).keys m).isSome = true := by
  unfold process_mod
  simp [alookup_ainsert_self]

/-- `process_mod` keeps every already-present table slot occupied. -/
theorem process_mod_lookup_mono (os : OsApi) (st : BuildSt) (m a : Nat)
    (h : (alookup ((st.layout).keys) a).isSome = true) :
    (alookup ((process_mod os st m).layout).keys a).isSome = true := by
  by_cases hm : m = a
  · subst hm
    exact process_mod_lookup_self os st m
  · unfold process_mod
    simp only []
    rw [alookup_ainsert_ne _ _ _ _ hm, foldl_process_vk_keys]
    exact h

/-- After at least one iteration of the outer loop, the table for the empty
bitset is present (the empty bitset is processed first). -/
theorem upto_lookup0 (os : OsApi) (strings : List String) (n : Nat) :
    (alookup ((first_pass_upto os strings (n + 1)).layout).keys 0).isSome
      = true := by
  induction n with
  | zero =>
    rw [first_pass_upto_succ]
    exact process_mod_lookup_self os _ 0
  | succ k ih =>
    rw [first_pass_upto_succ]
    exact process_mod_lookup_mono os _ _ _ ih

/-- C9: whenever the AltGr-detection branch runs — that is, at any point
inside the inner loop of the Control+Alt bitset (numeric value 6) — the
table for the empty bitset is already in `layout.keys`, so the source's
`unwrap` on `layout.keys.get(&WindowsModifiers::empty())` cannot panic;
this rests on the bitsets being enumerated in increasing numeric order and
each bitset's table being inserted before the next bitset is processed. -/
theorem c9_empty_table_present (os : OsApi) (strings : List String) (j : Nat) :
    (alookup
        ((inner_state os (first_pass_upto os strings 6) 6 j).2.1).keys
        0).isSome = true := by
  unfold inner_state
  rw [foldl_process_vk_keys]
  exact upto_lookup0 os strings 5

/-! ## C10: the layout cache and the string pool -/

/-- `get_or_insert_str` returns a string equal to its argument. -/
theorem get_or_insert_str_fst (l : List String) (s : String) :
    (get_or_insert_str l s).1 = s := by
  unfold get_or_insert_str
  cases h : l.find? (fun t => t == s) with
  | none => rfl
  | some t =>
    have := List.find?_some h
    exact eq_of_beq this

/-- `get_or_insert_str` never removes a string from the pool. -/
theorem get_or_insert_str_mem_snd (l : List String) (s t : String)
    (h : t ∈ l) : t ∈ (get_or_insert_str l s).2 := by
  unfold get_or_insert_str
  cases hf : l.find? (fun t => t == s) with
  | none => exact List.mem_cons_of_mem _ h
  | some u => exact h

/-- When an equal string is already interned, `get_or_insert_str` leaves the
pool unchanged and returns the stored element. -/
theorem get_or_insert_str_hit (l : List String) (s : String) (h : s ∈ l) :
    (get_or_insert_str l s).2 = l ∧ (get_or_insert_str l s).1 ∈ l ∧
    (get_or_insert_str l s).1 = s := by
  cases hf : l.find? (fun t => t == s) with
  | none =>
    exfalso
    have := List.find?_eq_none.mp hf s h
    simp at this
  | some u =>
    have h1 : get_or_insert_str l s = (u, l) := by
      unfold get_or_insert_str
      rw [hf]
    rw [h1]
    have hb := List.find?_some hf
    have hb2 : (u == s) = true := hb
    exact ⟨rfl, List.mem_of_find?_eq_some hf, eq_of_beq hb2⟩

/-- The dead-key/character resolution step only grows the string pool. -/
theorem resolve_unicode_key_strings_mono (os : OsApi) (m : Nat)
    (ks : KeyState) (strings : List String) (vk sc : Nat) (kc : KeyCode)
    (pk : Key) (t : String) (h : t ∈ strings) :
    t ∈ (resolve_unicode_key os m ks strings vk sc kc pk).2 := by
  simp only [resolve_unicode_key]
  split
  · exact get_or_insert_str_mem_snd _ _ _ h
  · exact h
  · split
    · exact h
    · exact h

/-- One inner-loop step only grows the string pool. -/
theorem process_vk_strings_mono (os : OsApi) (m : Nat) (ks : KeyState)
    (st : List String × Layout × List (KeyCode × Key)) (vk : Nat)
    (t : String) (h : t ∈ st.1) : t ∈ (process_vk os m ks st vk).1 := by
  simp only [process_vk]
  split
  · exact h
  · split
    · exact resolve_unicode_key_strings_mono _ _ _ _ _ _ _ _ _ h
    · exact h

/-- The whole inner loop only grows the string pool. -/
theorem foldl_process_vk_strings_mono (os : OsApi) (m : Nat) (ks : KeyState) :
    ∀ (l : List Nat) (acc : List String × Layout × List (KeyCode × Key))
      (t : String), t ∈ acc.1 → t ∈ (l.foldl (process_vk os m ks) acc).1 := by
  intro l
  induction l with
  | nil => intro acc t h; exact h
  | cons a rest ih =>
    intro acc t h
    simp only [List.foldl_cons]
    exact ih _ _ (process_vk_strings_mono _ _ _ _ _ _ h)

/-- One outer-loop iteration only grows the string pool. -/
theorem process_mod_strings_mono (os : OsApi) (st : BuildSt) (m : Nat)
    (t : String) (h : t ∈ st.strings) :
    t ∈ (process_mod os st m).strings := by
  unfold process_mod
  exact foldl_process_vk_strings_mono os m _ _ _ t h

/-- The first pass only grows the string pool. -/
theorem first_pass_upto_strings_mono (os : OsApi) (strings : List String)
    (n : Nat) (t : String) (h : t ∈ strings) :
    t ∈ (first_pass_upto os strings n).strings := by
  induction n with
  | zero => exact h
  | succ k ih =>
    rw [first_pass_upto_succ]
    exact process_mod_strings_mono _ _ _ _ ih

/-- `prepare_layout` only grows the string pool. -/
theorem prepare_layout_strings_mono (os : OsApi) (strings : List String)
    (t : String) (h : t ∈ strings) : t ∈ (prepare_layout os strings).1 := by
  simp only [prepare_layout]
  split
  · exact first_pass_upto_strings_mono os strings 16 t h
  · exact first_pass_upto_strings_mono os strings 16 t h

/-- C10: `get_current_layout` is a pure memoizing cache: a hit returns the
cache unchanged; every pre-existing locale entry survives with its layout
intact; a miss adds exactly one entry, for the queried locale; the interned
string pool only grows; and `get_or_insert_str` itself never removes a
string and answers a hit with the already-stored (equal) element, leaving
the pool untouched. -/
theorem c10_cache_never_evicts (os : OsApi) (cache : LayoutCache) :
    ((alookup cache.layouts os.current_locale).isSome = true →
      (cache.get_current_layout os).2 = cache) ∧
    (∀ (lid : Nat) (L : Layout), alookup cache.layouts lid = some L →
      alookup ((cache.get_current_layout os).2).layouts lid = some L) ∧
    (∀ lid : Nat, lid ≠ os.current_locale →
      alookup ((cache.get_current_layout os).2).layouts lid
        = alookup cache.layouts lid) ∧
    (alookup ((cache.get_current_layout os).2).layouts
        os.current_locale).isSome = true ∧
    (∀ t : String, t ∈ cache.strings →
      t ∈ ((cache.get_current_layout os).2).strings) ∧
    (∀ (strings : List String) (s t : String), t ∈ strings →
      t ∈ (get_or_insert_str strings s).2) ∧
    (∀ (strings : List String) (s : String), s ∈ strings →
      (get_or_insert_str strings s).2 = strings ∧
      (get_or_insert_str strings s).1 ∈ strings ∧
      (get_or_insert_str strings s).1 = s) := by
  cases h : alookup cache.layouts os.current_locale with
  | some L =>
    have heq : (cache.get_current_layout os).2 = cache := by
      simp only [LayoutCache.get_current_layout]
      rw [h]
    refine ⟨fun _ => heq, ?_, ?_, ?_, ?_,
      fun strings s t ht => get_or_insert_str_mem_snd strings s t ht,
      fun strings s hs => get_or_insert_str_hit strings s hs⟩
    · intro lid L2 hl
      rw [heq]
      exact hl
    · intro lid _
      rw [heq]
    · rw [heq, h]
      rfl
    · intro t ht
      rw [heq]
      exact ht
  | none =>
    have heq : (cache.get_current_layout os).2
        = ⟨ainsert cache.layouts os.current_locale
            (prepare_layout os cache.strings).2,
          (prepare_layout os cache.strings).1⟩ := by
      simp only [LayoutCache.get_current_layout]
      rw [h]
    refine ⟨fun hs => ?_, ?_, ?_, ?_, ?_,
      fun strings s t ht => get_or_insert_str_mem_snd strings s t ht,
      fun strings s hs => get_or_insert_str_hit strings s hs⟩
    · simp at hs
    · intro lid L2 hl
      have hne : lid ≠ os.current_locale := by
        intro he
        rw [he, h] at hl
        cases hl
      rw [heq]
      show alookup
        (ainsert cache.layouts os.current_locale
          (prepare_layout os cache.strings).2) lid = some L2
      rw [alookup_ainsert_ne _ _ _ _ (fun he => hne he.symm)]
      exact hl
    · intro lid hne
      rw [heq]
      exact alookup_ainsert_ne _ _ _ _ (fun he => hne he.symm)
    · rw [heq]
      show (alookup
        (ainsert cache.layouts os.current_locale
          (prepare_layout os cache.strings).2)
        os.current_locale).isSome = true
      rw [alookup_ainsert_self]
      rfl
    · intro t ht
      rw [heq]
      exact prepare_layout_strings_mono os cache.strings t ht

/-- Witness for C10: a cache hit (locale 5) returns the cache unchanged and
keeps the pre-existing entry. -/
theorem c10_cache_never_evicts_witness :
    ((c10_cache.get_current_layout c10_os).2 = c10_cache) ∧
    (alookup ((c10_cache.get_current_layout c10_os).2).layouts 5
      = some c10_layout) := by
  have h := c10_cache_never_evicts c10_os c10_cache
  exact ⟨h.1 (by decide), h.2.1 5 c10_layout (by decide)⟩

/-! ## C1: AltGr detection -/

/-- When composition yields a string, the resolved key is that `Character`
(interning returns an equal string). -/
theorem resolve_unicode_key_str (os : OsApi) (m : Nat) (ks : KeyState)
    (strings : List String) (vk sc : Nat) (kc : KeyCode) (pk : Key)
    (s : String) (h : to_unicode_string os ks vk sc = ToUnicodeResult.Str s) :
    (resolve_unicode_key os m ks strings vk sc kc pk).1
      = Key.Character s := by
  simp only [resolve_unicode_key]
  rw [h]
  show Key.Character (get_or_insert_str strings s).1 = Key.Character s
  rw [get_or_insert_str_fst]

/-- A virtual key with non-zero scancode, no non-printable resolution and a
string composition result writes that `Character` into the per-modifier
table under its key code. -/
theorem process_vk_writes_char (os : OsApi) (m : Nat) (ks : KeyState)
    (st : List String × Layout × List (KeyCode × Key)) (vk : Nat)
    (s : String)
    (hsc : ¬ os.map_vk_to_vsc vk = 0)
    (hprel : (os.non_printable vk (NativeKeyCode.Windows (os.map_vk_to_vsc vk))
      (os.key_to_code (os.map_vk_to_vsc vk))).isUnidentified = true)
    (huni : to_unicode_string os ks vk (os.map_vk_to_vsc vk)
      = ToUnicodeResult.Str s) :
    alookup (process_vk os m ks st vk).2.2
      (os.key_to_code (os.map_vk_to_vsc vk)) = some (Key.Character s) := by
  simp only [process_vk]
  rw [if_neg hsc]
  cases hp : os.non_printable vk (NativeKeyCode.Windows (os.map_vk_to_vsc vk))
      (os.key_to_code (os.map_vk_to_vsc vk)) with
  | Character s2 => rw [hp] at hprel; simp [Key.isUnidentified] at hprel
  | Dead c => rw [hp] at hprel; simp [Key.isUnidentified] at hprel
  | AltGraph => rw [hp] at hprel; simp [Key.isUnidentified] at hprel
  | NonPrintable t => rw [hp] at hprel; simp [Key.isUnidentified] at hprel
  | Unidentified code =>
    show alookup
      (ainsert st.2.2 (os.key_to_code (os.map_vk_to_vsc vk))
        (resolve_unicode_key os m ks st.1 vk (os.map_vk_to_vsc vk)
          (os.key_to_code (os.map_vk_to_vsc vk)) (Key.Unidentified code)).1)
      (os.key_to_code (os.map_vk_to_vsc vk)) = some (Key.Character s)
    rw [alookup_ainsert_self,
      resolve_unicode_key_str os m ks st.1 vk (os.map_vk_to_vsc vk)
        (os.key_to_code (os.map_vk_to_vsc vk)) (Key.Unidentified code) s huni]

/-- A virtual key that does not exist (zero scancode) or whose key code
differs from `k` leaves the table's value at `k` unchanged. -/
theorem process_vk_tbl_preserve (os : OsApi) (m : Nat) (ks : KeyState)
    (st : List String × Layout × List (KeyCode × Key)) (vk : Nat)
    (k : KeyCode)
    (h : os.map_vk_to_vsc vk = 0 ∨
      ¬ os.key_to_code (os.map_vk_to_vsc vk) = k) :
    alookup (process_vk os m ks st vk).2.2 k = alookup st.2.2 k := by
  simp only [process_vk]
  by_cases hsc : os.map_vk_to_vsc vk = 0
  · rw [if_pos hsc]
  · rw [if_neg hsc]
    have hk : ¬ os.key_to_code (os.map_vk_to_vsc vk) = k := by
      rcases h with h0 | hne
      · exact absurd h0 hsc
      · exact hne
    split
    · exact alookup_ainsert_ne _ _ _ _ hk
    · exact alookup_ainsert_ne _ _ _ _ hk

/-- A virtual key with non-zero scancode always occupies its key code's slot
in the per-modifier table (whatever key it stores). -/
theorem process_vk_writes_some (os : OsApi) (m : Nat) (ks : KeyState)
    (st : List String × Layout × List (KeyCode × Key)) (vk : Nat)
    (hsc : ¬ os.map_vk_to_vsc vk = 0) :
    (alookup (process_vk os m ks st vk).2.2
      (os.key_to_code (os.map_vk_to_vsc vk))).isSome = true := by
  simp only [process_vk]
  rw [if_neg hsc]
  split
  · rw [alookup_ainsert_self]; rfl
  · rw [alookup_ainsert_self]; rfl

/-- A cons-insert keeps occupied slots occupied. -/
theorem alookup_ainsert_isSome {α β : Type} [DecidableEq α]
    (l : List (α × β)) (k : α) (v : β) (a : α)
    (h : (alookup l a).isSome = true) :
    (alookup (ainsert l k v) a).isSome = true := by
  rw [alookup_ainsert]
  split
  · rfl
  · exact h

/-- One inner-loop step keeps occupied table slots occupied. -/
theorem process_vk_tbl_isSome_mono (os : OsApi) (m : Nat) (ks : KeyState)
    (st : List String × Layout × List (KeyCode × Key)) (vk : Nat)
    (k : KeyCode) (h : (alookup st.2.2 k).isSome = true) :
    (alookup (process_vk os m ks st vk).2.2 k).isSome = true := by
  simp only [process_vk]
  split
  · exact h
  · split
    · exact alookup_ainsert_isSome _ _ _ _ h
    · exact alookup_ainsert_isSome _ _ _ _ h

/-- The inner loop keeps an established `Character` entry provided no other
virtual key in the remaining list writes to the same key code. -/
theorem foldl_tbl_char_keep (os : OsApi) (m : Nat) (ks : KeyState) (V : Nat)
    (s : String)
    (hsc : ¬ os.map_vk_to_vsc V = 0)
    (hprel : (os.non_printable V (NativeKeyCode.Windows (os.map_vk_to_vsc V))
      (os.key_to_code (os.map_vk_to_vsc V))).isUnidentified = true)
    (huni : to_unicode_string os ks V (os.map_vk_to_vsc V)
      = ToUnicodeResult.Str s) :
    ∀ (l : List Nat) (acc : List String × Layout × List (KeyCode × Key)),
      (∀ vk ∈ l, vk ≠ V → os.map_vk_to_vsc vk = 0 ∨
        ¬ os.key_to_code (os.map_vk_to_vsc vk)
          = os.key_to_code (os.map_vk_to_vsc V)) →
      alookup acc.2.2 (os.key_to_code (os.map_vk_to_vsc V))
        = some (Key.Character s) →
      alookup (l.foldl (process_vk os m ks) acc).2.2
        (os.key_to_code (os.map_vk_to_vsc V)) = some (Key.Character s) := by
  intro l
  induction l with
  | nil => intro acc _ h; exact h
  | cons a rest ih =>
    intro acc hfree h
    simp only [List.foldl_cons]
    refine ih _ (fun vk hm hne => hfree vk (List.mem_cons_of_mem a hm) hne)
      ?_
    by_cases ha : a = V
    · subst ha
      exact process_vk_writes_char os m ks acc a s hsc hprel huni
    · rw [process_vk_tbl_preserve os m ks acc a _
        (hfree a (List.mem_cons_self a rest) ha)]
      exact h

/-- After the inner loop has processed `V` (and no other virtual key writes
to `V`'s key code), the per-modifier table maps `V`'s key code to the
composed `Character`. -/
theorem foldl_tbl_char (os : OsApi) (m : Nat) (ks : KeyState) (V : Nat)
    (s : String)
    (hsc : ¬ os.map_vk_to_vsc V = 0)
    (hprel : (os.non_printable V (NativeKeyCode.Windows (os.map_vk_to_vsc V))
      (os.key_to_code (os.map_vk_to_vsc V))).isUnidentified = true)
    (huni : to_unicode_string os ks V (os.map_vk_to_vsc V)
      = ToUnicodeResult.Str s) :
    ∀ (l : List Nat) (acc : List String × Layout × List (KeyCode × Key)),
      (∀ vk ∈ l, vk ≠ V → os.map_vk_to_vsc vk = 0 ∨
        ¬ os.key_to_code (os.map_vk_to_vsc vk)
          = os.key_to_code (os.map_vk_to_vsc V)) →
      V ∈ l →
      alookup (l.foldl (process_vk os m ks) acc).2.2
        (os.key_to_code (os.map_vk_to_vsc V)) = some (Key.Character s) := by
  intro l
  induction l with
  | nil => intro acc _ hV; cases hV
  | cons a rest ih =>
    intro acc hfree hV
    simp only [List.foldl_cons]
    by_cases ha : a = V
    · subst ha
      exact foldl_tbl_char_keep os m ks a s hsc hprel huni rest _
        (fun vk hm hne => hfree vk (List.mem_cons_of_mem a hm) hne)
        (process_vk_writes_char os m ks acc a s hsc hprel huni)
    · have hVrest : V ∈ rest := by
        rcases List.mem_cons.mp hV with h | h
        · exact absurd h.symm ha
        · exact h
      exact ih _ (fun vk hm hne => hfree vk (List.mem_cons_of_mem a hm) hne)
        hVrest

/-- The inner loop keeps occupied table slots occupied. -/
theorem foldl_tbl_isSome_keep (os : OsApi) (m : Nat) (ks : KeyState)
    (k : KeyCode) :
    ∀ (l : List Nat) (acc : List String × Layout × List (KeyCode × Key)),
      (alookup acc.2.2 k).isSome = true →
      (alookup (l.foldl (process_vk os m ks) acc).2.2 k).isSome = true := by
  intro l
  induction l with
  | nil => intro acc h; exact h
  | cons a rest ih =>
    intro acc h
    simp only [List.foldl_cons]
    exact ih _ (process_vk_tbl_isSome_mono os m ks acc a k h)

/-- After the inner loop has processed a virtual key with non-zero scancode,
that key's key-code slot is occupied. -/
theorem foldl_tbl_isSome (os : OsApi) (m : Nat) (ks : KeyState) (vkr : Nat)
    (hsc : ¬ os.map_vk_to_vsc vkr = 0) :
    ∀ (l : List Nat) (acc : List String × Layout × List (KeyCode × Key)),
      vkr ∈ l →
      (alookup (l.foldl (process_vk os m ks) acc).2.2
        (os.key_to_code (os.map_vk_to_vsc vkr))).isSome = true := by
  intro l
  induction l with
  | nil => intro acc h; cases h
  | cons a rest ih =>
    intro acc hm
    simp only [List.foldl_cons]
    by_cases ha : a = vkr
    · subst ha
      by_cases hrest : a ∈ rest
      · exact ih _ hrest
      · exact foldl_tbl_isSome_keep os m ks _ rest _
          (process_vk_writes_some os m ks acc a hsc)
    · have hrest : vkr ∈ rest := by
        rcases List.mem_cons.mp hm with h | h
        · exact absurd h.symm ha
        · exact h
      exact ih _ hrest

/-- The builder's threaded keyboard state is the oracle-independent
`kbd_state_before`. -/
theorem first_pass_upto_key_state (os : OsApi) (strings : List String)
    (n : Nat) :
    (first_pass_upto os strings n).key_state = kbd_state_before n := by
  induction n with
  | zero => rfl
  | succ k ih =>
    rw [first_pass_upto_succ]
    show WindowsModifiers.apply_to_kbd_state k
        (first_pass_upto os strings k).key_state = kbd_state_before (k + 1)
    rw [ih]
    unfold kbd_state_before
    rw [List.range_succ, List.foldl_append]
    rfl

/-- After the first pass has processed at least the empty bitset, the
empty-bitset table maps `V`'s key code to the `Character` composed with no
modifiers active, provided no other virtual key shares `V`'s key code. -/
theorem upto_tbl0_char (os : OsApi) (strings : List String) (V : Nat)
    (sa : String)
    (hV : V < 256)
    (hsc : ¬ os.map_vk_to_vsc V = 0)
    (hprel : (os.non_printable V (NativeKeyCode.Windows (os.map_vk_to_vsc V))
      (os.key_to_code (os.map_vk_to_vsc V))).isUnidentified = true)
    (ha : to_unicode_string os (kbd_state_for 0) V (os.map_vk_to_vsc V)
      = ToUnicodeResult.Str sa)
    (huniq : ∀ vk, vk < 256 → vk ≠ V → os.map_vk_to_vsc vk = 0 ∨
      ¬ os.key_to_code (os.map_vk_to_vsc vk)
        = os.key_to_code (os.map_vk_to_vsc V)) :
    ∀ n : Nat, ∃ t,
      alookup ((first_pass_upto os strings (n + 1)).layout).keys 0 = some t
      ∧ alookup t (os.key_to_code (os.map_vk_to_vsc V))
          = some (Key.Character sa) := by
  intro n
  induction n with
  | zero =>
    rw [first_pass_upto_succ]
    refine ⟨((List.range 256).foldl
      (process_vk os 0 (WindowsModifiers.apply_to_kbd_state 0
        (first_pass_init strings).key_state))
      ((first_pass_init strings).strings, (first_pass_init strings).layout,
        [])).2.2, ?_, ?_⟩
    · exact alookup_ainsert_self _ _ _
    · show alookup ((List.range 256).foldl
        (process_vk os 0 (kbd_state_for 0)) _).2.2 _ = _
      exact foldl_tbl_char os 0 (kbd_state_for 0) V sa hsc hprel ha
        (List.range 256) _
        (fun vk hm hne => huniq vk (List.mem_range.mp hm) hne)
        (List.mem_range.mpr hV)
  | succ k ih =>
    obtain ⟨t, ht, htV⟩ := ih
    refine ⟨t, ?_, htV⟩
    rw [first_pass_upto_succ]
    show alookup (ainsert _ (k + 1) _) 0 = some t
    rw [alookup_ainsert_ne _ _ _ _ (Nat.succ_ne_zero k), foldl_process_vk_keys]
    exact ht

/-- Processing `V` during the Control+Alt bitset turns `has_alt_graph` on:
either it was already on, or the freshly composed `Character` differs from
the one stored under the empty bitset. -/
theorem process_vk_mod6_sets_hag (os : OsApi) (ks : KeyState)
    (st : List String × Layout × List (KeyCode × Key)) (V : Nat)
    (sa sb : String) (t0 : List (KeyCode × Key))
    (hsc : ¬ os.map_vk_to_vsc V = 0)
    (hprel : (os.non_printable V (NativeKeyCode.Windows (os.map_vk_to_vsc V))
      (os.key_to_code (os.map_vk_to_vsc V))).isUnidentified = true)
    (huni : to_unicode_string os ks V (os.map_vk_to_vsc V)
      = ToUnicodeResult.Str sb)
    (hne : sb ≠ sa)
    (h0 : alookup (st.2.1).keys 0 = some t0)
    (hT : alookup t0 (os.key_to_code (os.map_vk_to_vsc V))
      = some (Key.Character sa)) :
    ((process_vk os 6 ks st V).2.1).has_alt_graph = true := by
  by_cases hh : (st.2.1).has_alt_graph = true
  · exact process_vk_hag_mono _ _ _ _ _ hh
  · have hf : (st.2.1).has_alt_graph = false := Bool.eq_false_iff.mpr hh
    simp only [process_vk]
    rw [if_neg hsc]
    cases hp : os.non_printable V (NativeKeyCode.Windows (os.map_vk_to_vsc V))
        (os.key_to_code (os.map_vk_to_vsc V)) with
    | Character s2 => rw [hp] at hprel; simp [Key.isUnidentified] at hprel
    | Dead c => rw [hp] at hprel; simp [Key.isUnidentified] at hprel
    | AltGraph => rw [hp] at hprel; simp [Key.isUnidentified] at hprel
    | NonPrintable tg => rw [hp] at hprel; simp [Key.isUnidentified] at hprel
    | Unidentified code =>
      show (altgr_update st.2.1 6 (os.key_to_code (os.map_vk_to_vsc V))
        (resolve_unicode_key os 6 ks st.1 V (os.map_vk_to_vsc V)
          (os.key_to_code (os.map_vk_to_vsc V))
          (Key.Unidentified code)).1).has_alt_graph = true
      rw [resolve_unicode_key_str os 6 ks st.1 V (os.map_vk_to_vsc V)
        (os.key_to_code (os.map_vk_to_vsc V)) (Key.Unidentified code) sb huni]
      show altgr_flag st.2.1 6 (os.key_to_code (os.map_vk_to_vsc V))
        (Key.Character sb) = true
      simp only [altgr_flag]
      rw [if_pos (by rw [hf]; decide)]
      rw [h0]
      simp only [Option.getD]
      rw [hT]
      exact decide_eq_true hne

/-- Once the inner loop of the Control+Alt bitset reaches `V`, the AltGr
flag is on at the end of that loop. -/
theorem foldl_mod6_hag (os : OsApi) (ks : KeyState) (V : Nat)
    (sa sb : String)
    (hsc : ¬ os.map_vk_to_vsc V = 0)
    (hprel : (os.non_printable V (NativeKeyCode.Windows (os.map_vk_to_vsc V))
      (os.key_to_code (os.map_vk_to_vsc V))).isUnidentified = true)
    (huni : to_unicode_string os ks V (os.map_vk_to_vsc V)
      = ToUnicodeResult.Str sb)
    (hne : sb ≠ sa) :
    ∀ (l : List Nat) (acc : List String × Layout × List (KeyCode × Key)),
      V ∈ l →
      (∃ t0, alookup (acc.2.1).keys 0 = some t0 ∧
        alookup t0 (os.key_to_code (os.map_vk_to_vsc V))
          = some (Key.Character sa)) →
      ((l.foldl (process_vk os 6 ks) acc).2.1).has_alt_graph = true := by
  intro l
  induction l with
  | nil => intro acc h; cases h
  | cons a rest ih =>
    intro acc hm hprop
    obtain ⟨t0, h0, hT⟩ := hprop
    simp only [List.foldl_cons]
    by_cases ha : a = V
    · subst ha
      exact foldl_process_vk_hag_mono os 6 ks rest _
        (process_vk_mod6_sets_hag os ks acc a sa sb t0 hsc hprel huni hne
          h0 hT)
    · have hrest : V ∈ rest := by
        rcases List.mem_cons.mp hm with h | h
        · exact absurd h.symm ha
        · exact h
      refine ih _ hrest ⟨t0, ?_, hT⟩
      rw [process_vk_keys]
      exact h0

/-- One outer-loop iteration never clears `has_alt_graph`. -/
theorem process_mod_hag_mono (os : OsApi) (st : BuildSt) (m : Nat)
    (h : (st.layout).has_alt_graph = true) :
    ((process_mod os st m).layout).has_alt_graph = true := by
  show ((List.range 256).foldl
    (process_vk os m (WindowsModifiers.apply_to_kbd_state m st.key_state))
    (st.strings, st.layout, [])).2.1.has_alt_graph = true
  exact foldl_process_vk_hag_mono os m _ (List.range 256) _ h

/-- Under the synthetic-locale hypotheses, the full first pass ends with
`has_alt_graph = true`: the flag is turned on while processing bitset 6 and
no later bitset clears it. -/
theorem upto16_hag (os : OsApi) (strings : List String) (V : Nat)
    (sa sb : String)
    (hV : V < 256)
    (hsc : ¬ os.map_vk_to_vsc V = 0)
    (hprel : (os.non_printable V (NativeKeyCode.Windows (os.map_vk_to_vsc V))
      (os.key_to_code (os.map_vk_to_vsc V))).isUnidentified = true)
    (ha : to_unicode_string os (kbd_state_for 0) V (os.map_vk_to_vsc V)
      = ToUnicodeResult.Str sa)
    (hb : to_unicode_string os (kbd_state_for 6) V (os.map_vk_to_vsc V)
      = ToUnicodeResult.Str sb)
    (hne : sb ≠ sa)
    (huniq : ∀ vk, vk < 256 → vk ≠ V → os.map_vk_to_vsc vk = 0 ∨
      ¬ os.key_to_code (os.map_vk_to_vsc vk)
        = os.key_to_code (os.map_vk_to_vsc V)) :
    ((first_pass_upto os strings 16).layout).has_alt_graph = true := by
  have h7 : ((first_pass_upto os strings 7).layout).has_alt_graph = true := by
    rw [first_pass_upto_succ]
    show ((List.range 256).foldl
      (process_vk os 6 (WindowsModifiers.apply_to_kbd_state 6
        (first_pass_upto os strings 6).key_state))
      ((first_pass_upto os strings 6).strings,
        (first_pass_upto os strings 6).layout, [])).2.1.has_alt_graph = true
    rw [first_pass_upto_key_state]
    refine foldl_mod6_hag os (kbd_state_for 6) V sa sb hsc hprel hb hne
      (List.range 256) _ (List.mem_range.mpr hV) ?_
    exact upto_tbl0_char os strings V sa hV hsc hprel ha huniq 5
  have hstep : ∀ d,
      ((first_pass_upto os strings (7 + d)).layout).has_alt_graph = true := by
    intro d
    induction d with
    | zero => exact h7
    | succ e ih =>
      have he : 7 + (e + 1) = (7 + e) + 1 := rfl
      rw [he, first_pass_upto_succ]
      exact process_mod_hag_mono os _ _ ih
  have h16 : (16 : Nat) = 7 + 9 := by norm_num
  rw [h16]
  exact hstep 9

/-- If some virtual key with non-zero scancode maps to `AltRight`, then
after `n` outer iterations every processed bitset's table has an occupied
`AltRight` slot. -/
theorem upto_altright (os : OsApi) (strings : List String) (vkr : Nat)
    (hvr : vkr < 256)
    (hscr : ¬ os.map_vk_to_vsc vkr = 0)
    (hkr : os.key_to_code (os.map_vk_to_vsc vkr) = KeyCode.AltRight) :
    ∀ (n m : Nat), m < n → ∃ t,
      alookup ((first_pass_upto os strings n).layout).keys m = some t ∧
      (alookup t KeyCode.AltRight).isSome = true := by
  intro n
  induction n with
  | zero => intro m hm; exact absurd hm (Nat.not_lt_zero m)
  | succ k ih =>
    intro m hm
    rw [first_pass_upto_succ]
    by_cases hmk : m = k
    · subst hmk
      refine ⟨_, alookup_ainsert_self _ _ _, ?_⟩
      have hsome := foldl_tbl_isSome os m
        (WindowsModifiers.apply_to_kbd_state m
          (first_pass_upto os strings m).key_state) vkr hscr
        (List.range 256)
        ((first_pass_upto os strings m).strings,
          (first_pass_upto os strings m).layout, [])
        (List.mem_range.mpr hvr)
      rw [hkr] at hsome
      exact hsome
    · have hmk2 : m < k := Nat.lt_of_le_of_ne (Nat.lt_succ_iff.mp hm) hmk
      obtain ⟨t, ht, hR⟩ := ih m hmk2
      refine ⟨t, ?_, hR⟩
      show alookup (ainsert _ k _) m = some t
      rw [alookup_ainsert_ne _ _ _ _ (fun he => hmk he.symm),
        foldl_process_vk_keys]
      exact ht

/-- The second pass leaves the tables of other bitsets alone. -/
theorem patch_alt_right_preserve (ks : List (Nat × List (KeyCode × Key)))
    (m a : Nat) (hne : m ≠ a) :
    alookup (patch_alt_right ks m) a = alookup ks a := by
  unfold patch_alt_right
  split
  · split
    · exact alookup_aset_ne _ _ _ _ hne
    · rfl
  · rfl

/-- One second-pass step rewrites an occupied `AltRight` slot of its own
bitset's table to `AltGraph`. -/
theorem patch_alt_right_self (ks : List (Nat × List (KeyCode × Key)))
    (m : Nat) (t : List (KeyCode × Key))
    (h : alookup ks m = some t)
    (hR : (alookup t KeyCode.AltRight).isSome = true) :
    (alookup (patch_alt_right ks m) m).bind
      (fun tb => alookup tb KeyCode.AltRight) = some Key.AltGraph := by
  unfold patch_alt_right
  split
  next keys2 heq =>
    have ht2 : keys2 = t := by
      rw [h] at heq
      exact ((Option.some.injEq _ _).mp heq).symm
    subst ht2
    split
    next k0 heq2 =>
      rw [alookup_aset_self, h]
      show alookup (aset keys2 KeyCode.AltRight Key.AltGraph)
        KeyCode.AltRight = some Key.AltGraph
      rw [alookup_aset_self, heq2]
      rfl
    next heq2 =>
      rw [heq2] at hR
      cases hR
  next heq =>
    rw [h] at heq
    cases heq

/-- Running the second pass over the first `j ≤ 16` bitsets patches exactly
the bitsets below `j` and leaves the rest untouched. -/
theorem patch_fold_aux (keys : List (Nat × List (KeyCode × Key)))
    (hall : ∀ m, m < 16 → ∃ t, alookup keys m = some t ∧
      (alookup t KeyCode.AltRight).isSome = true) :
    ∀ j, j ≤ 16 → ∀ m,
      (m < j → (alookup ((List.range j).foldl patch_alt_right keys) m).bind
        (fun tb => alookup tb KeyCode.AltRight) = some Key.AltGraph) ∧
      (j ≤ m → alookup ((List.range j).foldl patch_alt_right keys) m
        = alookup keys m) := by
  intro j
  induction j with
  | zero =>
    intro _ m
    exact ⟨fun hm => absurd hm (Nat.not_lt_zero m), fun _ => rfl⟩
  | succ i ih =>
    intro hj m
    have hi : i ≤ 16 := Nat.le_of_succ_le hj
    rw [List.range_succ, List.foldl_append]
    simp only [List.foldl_cons, List.foldl_nil]
    constructor
    · intro hm
      by_cases hmi : m = i
      · subst hmi
        obtain ⟨t, ht, hR⟩ :=
          hall m (Nat.lt_of_lt_of_le (Nat.lt_succ_self m) hj)
        have hcur : alookup ((List.range m).foldl patch_alt_right keys) m
            = some t := by
          rw [(ih hi m).2 (Nat.le_refl m)]
          exact ht
        exact patch_alt_right_self _ m t hcur hR
      · have hmi2 : m < i := Nat.lt_of_le_of_ne (Nat.lt_succ_iff.mp hm) hmi
        rw [patch_alt_right_preserve _ _ _ (fun he => hmi he.symm)]
        exact (ih hi m).1 hmi2
    · intro hm
      have him : i ≠ m := Nat.ne_of_lt (Nat.lt_of_succ_le hm)
      rw [patch_alt_right_preserve _ _ _ him]
      exact (ih hi m).2 (Nat.le_of_succ_le hm)

/-- C1: in a locale where some virtual key `V` composes to `Character sa`
under the empty bitset and to a different `Character sb` under exactly the
Control+Alt bitset — and where `V` is a real, composition-resolved key whose
key code no other virtual key shares, and some virtual key occupies the
right-Alt (`AltRight`) slot — the layout built by `prepare_layout` has
`has_alt_graph = true`, and after the second pass the `AltRight` slot of
every one of the 16 per-bitset tables resolves to the `AltGraph` key. -/
theorem c1_altgr_detection (os : OsApi) (strings : List String) (V : Nat)
    (sa sb : String)
    (hV : V < 256)
    (hsc : ¬ os.map_vk_to_vsc V = 0)
    (hprel : (os.non_printable V (NativeKeyCode.Windows (os.map_vk_to_vsc V))
      (os.key_to_code (os.map_vk_to_vsc V))).isUnidentified = true)
    (ha : to_unicode_string os (kbd_state_for 0) V (os.map_vk_to_vsc V)
      = ToUnicodeResult.Str sa)
    (hb : to_unicode_string os (kbd_state_for 6) V (os.map_vk_to_vsc V)
      = ToUnicodeResult.Str sb)
    (hne : sb ≠ sa)
    (huniq : ∀ vk, vk < 256 → vk ≠ V → os.map_vk_to_vsc vk = 0 ∨
      ¬ os.key_to_code (os.map_vk_to_vsc vk)
        = os.key_to_code (os.map_vk_to_vsc V))
    (hra : ∃ vkr, vkr < 256 ∧ ¬ os.map_vk_to_vsc vkr = 0 ∧
      os.key_to_code (os.map_vk_to_vsc vkr) = KeyCode.AltRight) :
    ((prepare_layout os strings).2).has_alt_graph = true ∧
    ∀ m, m < 16 →
      (alookup ((prepare_layout os strings).2).keys m).bind
        (fun tb => alookup tb KeyCode.AltRight) = some Key.AltGraph := by
  obtain ⟨vkr, hvr, hscr, hkr⟩ := hra
  have hag := upto16_hag os strings V sa sb hV hsc hprel ha hb hne huniq
  have hall : ∀ m, m < 16 → ∃ t,
      alookup ((first_pass_upto os strings 16).layout).keys m = some t ∧
      (alookup t KeyCode.AltRight).isSome = true :=
    fun m hm => upto_altright os strings vkr hvr hscr hkr 16 m hm
  have hprep : prepare_layout os strings
      = ((first_pass_upto os strings 16).strings,
        { keys := (List.range 16).foldl patch_alt_right
            ((first_pass_upto os strings 16).layout).keys
          has_alt_graph :=
            ((first_pass_upto os strings 16).layout).has_alt_graph }) := by
    simp only [prepare_layout]
    rw [if_pos hag]
  rw [hprep]
  refine ⟨hag, fun m hm => ?_⟩
  dsimp only
  exact (patch_fold_aux _ hall 16 (Nat.le_refl 16) m).1 hm

set_option maxRecDepth 8192 in
/-- Witness for C1: on the concrete synthetic locale `c1_os` (virtual key 65
composes to "a" bare and "b" under Control+Alt; virtual key 165 occupies
`AltRight`), the built layout has AltGr and all 16 tables map `AltRight` to
`AltGraph`. -/
theorem c1_altgr_detection_witness :
    ((prepare_layout c1_os []).2).has_alt_graph = true ∧
    ∀ m, m < 16 →
      (alookup ((prepare_layout c1_os []).2).keys m).bind
        (fun tb => alookup tb KeyCode.AltRight) = some Key.AltGraph :=
  c1_altgr_detection c1_os [] 65 "a" "b" (by decide) (by decide) (by decide)
    (by decide) (by decide) (by decide) (by decide)
    ⟨165, by decide, by decide, by decide⟩
